import Mathlib

/-!
Verification of the multi-pass GPU reduction engine `reduction::v9`
(src/Tutorials/reduction/include/Reduction/v9.hpp) against its
natural-language specification.

The device/host code is shallowly embedded:
  * machine integers become `Nat` (all quantities involved are sizes,
    indices and counts),
  * device buffers become functions `Nat → T` (contents) together with a
    `Bool` naming which of the two physical allocations a pointer
    (`front` / `back`) currently designates (`false` = the allocation
    `origi_front` points to, `true` = the one `origi_back` points to),
  * each `HIP_CHECK` / `hip::check` site becomes a potential structured
    failure, driven by an error oracle `errs : Nat → Bool` consumed in
    program order (the k-th HIP API call of the `operator()` body fails
    iff `errs k`); per the spec ("All errors propagate to the caller",
    "Fails (propagated, not swallowed) on any device API error") a
    failure aborts the call at that point with the operation name,
  * the statically unrolled compile-time loops of the kernel
    (`tmp::static_for`) become fueled structural recursions; the fuel
    supplied at each call site strictly dominates the number of
    iterations the unrolled loop performs for every menu configuration,
    so the fuel-exhausted branches are unreachable there.
-/

set_option maxHeartbeats 1600000

namespace Reduction

/- ------------------------------------------------------------------ -/
/- Definitions (shallow embedding of v9.hpp)                           -/
/- ------------------------------------------------------------------ -/

/-- Laws the caller must supply for the combining operator: associativity,
commutativity, and that `zero_elem` is a true neutral element
(`op(x, zero) == x`), exactly the preconditions named by the spec. -/
structure OpLaws {T : Type} (op : T → T → T) (zero_elem : T) : Prop where
  assoc : ∀ a b c, op (op a b) c = op a (op b c)
  comm : ∀ a b, op a b = op b a
  op_zero : ∀ a, op a zero_elem = a

/-- Compile-time menu of block sizes (v9.hpp line 96). -/
def blockSizeMenu : List Nat := [32, 64, 128, 256, 512, 1024]

/-- Compile-time menu of warp widths (v9.hpp line 100). -/
def warpSizeMenu : List Nat := [32, 64]

/-- Compile-time menu of items-per-thread values (v9.hpp line 104). -/
def itemsPerThreadMenu : List Nat := [1, 2, 3, 4, 8, 16]

/-- Pass planner (v9.hpp lines 166-169):
`actual / factor + (actual % factor == 0 ? 0 : 1)`. -/
def new_size (factor actual : Nat) : Nat :=
  actual / factor + (if actual % factor = 0 then 0 else 1)

/-- Modelled from the spec: `tmp::divide_ceil` from tmp_utils.hpp (not part
of the core source), the ceiling-division step functor used by the kernel's
cross-warp `static_for` loop ("recursively halving the number of active
warps", spec section 4.4 step 6). -/
def divide_ceil (x d : Nat) : Nat := (x + d - 1) / d

/-- Fold with the operator over the index window `[a, a + n)` of `v`,
starting from `zero_elem`:  `zero ⊕ v a ⊕ v (a+1) ⊕ ... ⊕ v (a+n-1)`. -/
def foldZ {T : Type} (op : T → T → T) (zero_elem : T) (v : Nat → T) (a : Nat) : Nat → T
  | 0 => zero_elem
  | n + 1 => op (foldZ op zero_elem v a n) (v (a + n))

/-- The kernel's bounds-safe read (v9.hpp lines 179-189): the
`ItemsPerThread` values a thread loads starting at index `i`.  If the whole
span is inside `front_size` the reads are unguarded; otherwise each
position is checked individually and out-of-range positions yield the
neutral element. -/
def read_global_safe {T : Type} (zero_elem : T) (front : Nat → T)
    (front_size ItemsPerThread i : Nat) : List T :=
  if i + ItemsPerThread < front_size then
    (List.range ItemsPerThread).map (fun I => front (i + I))
  else
    (List.range ItemsPerThread).map (fun I => if i + I < front_size then front (i + I) else zero_elem)

/-- Sequencing of instrumented reads: `none` as soon as one read is `none`. -/
def collect_reads {T : Type} (reads : List (Option T)) : Option (List T) :=
  reads.foldr
    (fun o acc =>
      match o, acc with
      | some x, some xs => some (x :: xs)
      | _, _ => none)
    (some [])

/-- Instrumented version of `read_global_safe` used for the memory-safety
claim: the valid region of the front buffer is a `List` of length
`front_size`, and every actual dereference `front[j]` becomes the partial
lookup `front.get? j`, so any out-of-bounds dereference surfaces as
`none`.  The branch structure is that of v9.hpp lines 179-189. -/
def read_global_safe_chk {T : Type} (zero_elem : T) (front : List T)
    (ItemsPerThread i : Nat) : Option (List T) :=
  if i + ItemsPerThread < front.length then
    collect_reads ((List.range ItemsPerThread).map (fun I => front.get? (i + I)))
  else
    collect_reads ((List.range ItemsPerThread).map
      (fun I => if i + I < front.length then front.get? (i + I) else some zero_elem))

/-- Per-thread serial reduction (v9.hpp lines 197-207): the thread's
`ItemsPerThread` loaded values are folded left-to-right into the first
one (`get<0>(arr) = op(get<0>(arr), get<I>(arr))` for `I = 1, ...`). -/
def thread_fold {T : Type} (op : T → T → T) (zero_elem : T) (front : Nat → T)
    (front_size ItemsPerThread i : Nat) : T :=
  match read_global_safe zero_elem front front_size ItemsPerThread i with
  | [] => zero_elem
  | x :: xs => xs.foldl op x

/-- `__shfl_down(res, Delta)` for lane `l` of a warp of `WarpSize` lanes
holding values `v`: the value of lane `l + Delta`, or the lane's own value
when the source lane is out of range. -/
def shfl_down {T : Type} (WarpSize Delta : Nat) (v : Nat → T) (l : Nat) : T :=
  if l + Delta < WarpSize then v (l + Delta) else v l

/-- The warp-shuffle reduction loop (v9.hpp lines 219-220):
`static_for<WarpSize / 2, not_equal<0>, divide<2>>` performing
`res = op(res, __shfl_down(res, Delta))` on every lane.  `fuel` bounds the
statically unrolled iteration count; every use below supplies
`fuel = WarpSize`, which strictly dominates the `log2 WarpSize` iterations
actually performed. -/
def warp_shuffle_iter {T : Type} (op : T → T → T) (WarpSize : Nat) :
    Nat → Nat → (Nat → T) → Nat → T
  | 0, _, v => v
  | fuel + 1, Delta, v =>
    if Delta = 0 then v
    else warp_shuffle_iter op WarpSize fuel (Delta / 2)
      (fun l => op (v l) (shfl_down WarpSize Delta v l))

/-- One full warp reduction over lane values `v`. -/
def warp_reduce {T : Type} (op : T → T → T) (WarpSize : Nat) (v : Nat → T) : Nat → T :=
  warp_shuffle_iter op WarpSize WarpSize (WarpSize / 2) v

/-- Bounds-safe shared-memory read (v9.hpp lines 190-191). -/
def read_shared_safe {T : Type} (zero_elem : T) (WarpCount : Nat)
    (shared : Nat → T) (i : Nat) : T :=
  if i < WarpCount then shared i else zero_elem

/-- One iteration of the kernel's cross-warp loop body (v9.hpp lines
214-230): warps with id below `ActiveWarps` run a warp reduction of their
lanes' `res` values and lane 0 stores the result to `shared[wid]`; after
the barrier every thread re-reads `res = read_shared_safe(tid)`. -/
def cross_warp_round {T : Type} (op : T → T → T) (zero_elem : T)
    (WarpSize WarpCount ActiveWarps : Nat) (res shared : Nat → T) :
    (Nat → T) × (Nat → T) :=
  let shared2 := fun w =>
    if w < ActiveWarps then warp_reduce op WarpSize (fun lid => res (w * WarpSize + lid)) 0
    else shared w
  let res2 := fun tid => read_shared_safe zero_elem WarpCount shared2 tid
  (res2, shared2)

/-- The kernel's cross-warp `static_for` loop (v9.hpp lines 210-230):
`static_for<WarpCount, not_equal<0>,
  select<not_equal<1>, divide_ceil<WarpSize>, constant<0>>>`.
`fuel` bounds the statically unrolled iteration count; the use below
supplies `WarpCount + 1`, which strictly dominates the number of rounds
for every menu configuration (at most two rounds occur, since
`WarpCount ≤ WarpSize`). -/
def cross_warp_loop {T : Type} (op : T → T → T) (zero_elem : T)
    (WarpSize WarpCount : Nat) :
    Nat → Nat → (Nat → T) → (Nat → T) → (Nat → T) × (Nat → T)
  | 0, _, res, shared => (res, shared)
  | fuel + 1, ActiveWarps, res, shared =>
    if ActiveWarps = 0 then (res, shared)
    else
      let p := cross_warp_round op zero_elem WarpSize WarpCount ActiveWarps res shared
      cross_warp_loop op zero_elem WarpSize WarpCount fuel
        (if ActiveWarps = 1 then 0 else divide_ceil ActiveWarps WarpSize) p.1 p.2

/-- The value block `bid` writes to `back[bid]` in one kernel launch
(v9.hpp lines 171-235).  `WarpCount = BlockSize / WarpSize`; thread `tid`
starts from `gid = bid * (BlockSize * ItemsPerThread) + tid * ItemsPerThread`,
folds its `ItemsPerThread` guarded loads, and the cross-warp loop combines
the per-thread values; thread 0's final `res` is the block's output.  The
uninitialised `__shared__` array is modelled as holding `zero_elem`; every
slot that is ever read in an executed round has been written in that round
or an earlier one. -/
def kernel_fun {T : Type} (op : T → T → T) (zero_elem : T)
    (BlockSize WarpSize ItemsPerThread : Nat) (front : Nat → T)
    (front_size : Nat) (bid : Nat) : T :=
  let WarpCount := BlockSize / WarpSize
  let res0 := fun tid =>
    thread_fold op zero_elem front front_size ItemsPerThread
      (bid * (BlockSize * ItemsPerThread) + tid * ItemsPerThread)
  (cross_warp_loop op zero_elem WarpSize WarpCount (WarpCount + 1) WarpCount
    res0 (fun _ => zero_elem)).1 0

/-- The sizes of the passes the host loop issues: the chain of values of
`curr` that satisfy `curr > 1`, each followed by `new_size factor curr`
(v9.hpp lines 128-137).  Fueled structural recursion; `fuel = n` suffices
whenever `factor ≥ 2`. -/
def sizeChainAux (factor : Nat) : Nat → Nat → List Nat
  | 0, _ => []
  | fuel + 1, n => if n ≤ 1 then [] else n :: sizeChainAux factor fuel (new_size factor n)

/-- Pass-size chain starting from `n`. -/
def sizeChain (factor n : Nat) : List Nat := sizeChainAux factor n n

/-- Host-visible state of one `operator()` call: which physical buffer the
`front` / `back` pointers designate (`false` = the allocation originally
called front, `true` = the one originally called back), the contents of
the two allocations, the sizes of the kernel launches performed so far,
and how many `std::swap(front, back)` were executed. -/
structure CallState (T : Type) where
  front : Bool
  back : Bool
  mem : Bool → Nat → T
  trace : List Nat
  swaps : Nat

/-- Write `vals` to the first `count` cells of allocation `b`. -/
def write_back {T : Type} (mem : Bool → Nat → T) (b : Bool) (vals : Nat → T)
    (count : Nat) : Bool → Nat → T :=
  fun b2 j => if b2 = b then (if j < count then vals j else mem b2 j) else mem b2 j

/-- The state after one kernel launch on `curr` elements (v9.hpp lines
108-117 and 131): `new_size(factor, curr)` block results are written into
the `back` allocation and the launch is recorded in the trace. -/
def launch_state {T : Type} (op : T → T → T) (zero_elem : T)
    (block_size warp_size items_per_thread curr : Nat) (st : CallState T) : CallState T :=
  { st with
      mem := write_back st.mem st.back
        (fun bid => kernel_fun op zero_elem block_size warp_size items_per_thread
          (st.mem st.front) curr bid)
        (new_size (block_size * items_per_thread) curr),
      trace := st.trace ++ [curr] }

/-- `std::swap(front, back)` (v9.hpp line 136). -/
def swap_state {T : Type} (st : CallState T) : CallState T :=
  { st with front := st.back, back := st.front, swaps := st.swaps + 1 }

/-- The host pass loop (v9.hpp lines 128-137) with the kernel dispatcher
inlined (lines 94-121).  Modelled from the spec where the source is
outside src/: `tmp::static_switch` (tmp_utils.hpp) reports a
configuration/usage error when the runtime value is not in its menu
("Fails (reported as a configuration/usage error, not a silent no-op) if
the runtime value is not present in the corresponding menu", spec section
4.3), and `hip::check` (hip_utils.hpp) propagates device errors tagged
with the operation name.  The launch-error check consumes oracle index
`k`; buffers are swapped only when the new size still exceeds 1.  `fuel`
is structural recursion fuel; `fuel = n` suffices because `curr` strictly
decreases for every menu configuration. -/
def pass_loop {T : Type} (op : T → T → T) (zero_elem : T)
    (block_size warp_size items_per_thread : Nat) (errs : Nat → Bool) :
    Nat → Nat → Nat → CallState T → Except String Unit × CallState T
  | 0, curr, _, st =>
    if curr ≤ 1 then (Except.ok (), st) else (Except.error "pass_loop: fuel exhausted", st)
  | fuel + 1, curr, k, st =>
    if curr ≤ 1 then (Except.ok (), st)
    else
      if block_size ∈ blockSizeMenu then
        if warp_size ∈ warpSizeMenu then
          if items_per_thread ∈ itemsPerThreadMenu then
            if errs k then
              (Except.error "hipKernelLaunchGGL",
                launch_state op zero_elem block_size warp_size items_per_thread curr st)
            else
              pass_loop op zero_elem block_size warp_size items_per_thread errs
                fuel (new_size (block_size * items_per_thread) curr) (k + 1)
                (if 1 < new_size (block_size * items_per_thread) curr then
                  swap_state
                    (launch_state op zero_elem block_size warp_size items_per_thread curr st)
                else
                  launch_state op zero_elem block_size warp_size items_per_thread curr st)
          else (Except.error "static_switch: unsupported items_per_thread", st)
        else (Except.error "static_switch: unsupported warp_size", st)
      else (Except.error "static_switch: unsupported block_size", st)

/-- The tail of `v9::operator()` after the pass loop (v9.hpp lines
138-153): a loop failure propagates as-is; otherwise the end-event record,
the synchronize, the device-to-host copy of `back[0]`, the elapsed-time
query and the two event destroys each consume one error-oracle index
(continuing after the per-launch indices `4, ..., 4 + passes - 1`), and
only when all succeed are `front`/`back` restored to the original
allocations (lines 150-151) and the copied scalar returned. -/
def call_finish {T : Type} (errs : Nat → Bool)
    (out : Except String Unit × CallState T) : Except String T × CallState T :=
  match out with
  | (Except.error e, st) => (Except.error e, st)
  | (Except.ok _, st) =>
    let k := 4 + st.trace.length
    if errs k then (Except.error "hipEventRecord", st)
    else if errs (k + 1) then (Except.error "hipEventSynchronize", st)
    else if errs (k + 2) then (Except.error "hipMemcpy", st)
    else
      let result := st.mem st.back 0
      if errs (k + 3) then (Except.error "hipEventElapsedTime", st)
      else if errs (k + 4) then (Except.error "hipEventDestroy", st)
      else if errs (k + 5) then (Except.error "hipEventDestroy", st)
      else (Except.ok result, { st with front := false, back := true })

/-- The body of `v9::operator()` (v9.hpp lines 88-154).  HIP API calls in
program order consume the error oracle: index 0 the host-to-device copy of
the input into `front` (line 92), 1-3 the event creates and the start
record (lines 125-127), `4 + i` the check after launch `i`, and the
remaining calls continue in `call_finish`. -/
def call_operator {T : Type} (op : T → T → T) (zero_elem : T)
    (block_size warp_size items_per_thread : Nat) (errs : Nat → Bool)
    (input : List T) (initMem : Bool → Nat → T) : Except String T × CallState T :=
  let st0 : CallState T :=
    { front := false, back := true, mem := initMem, trace := [], swaps := 0 }
  let st1 : CallState T :=
    { st0 with
        mem := write_back st0.mem false (fun j => input.getD j zero_elem) input.length }
  if errs 0 then (Except.error "hipMemcpy", st1)
  else if errs 1 then (Except.error "hipEventCreate", st1)
  else if errs 2 then (Except.error "hipEventCreate", st1)
  else if errs 3 then (Except.error "hipEventRecord", st1)
  else
    call_finish errs
      (pass_loop op zero_elem block_size warp_size items_per_thread errs
        input.length input.length 4 st1)

/-- The reference oracle of the spec: the sequential left-to-right fold of
a nonempty input with the operator. -/
def seqFold {T : Type} (op : T → T → T) : List T → Option T
  | [] => none
  | x :: xs => some (xs.foldl op x)

/-- `*std::max_element` over the configured input sizes (v9.hpp line 69);
the empty span is undefined behaviour in the source and modelled as 0. -/
def v9_front_alloc : List Nat → Nat
  | [] => 0
  | x :: xs => xs.foldl max x

/-- `*std::min_element` over the configured block sizes (v9.hpp line 68);
the empty span is undefined behaviour in the source and modelled as 0. -/
def v9_smallest_factor : List Nat → Nat
  | [] => 0
  | x :: xs => xs.foldl min x

/-- Element count allocated for the back buffer (v9.hpp line 71). -/
def v9_back_alloc (input_sizes block_sizes : List Nat) : Nat :=
  new_size (v9_smallest_factor block_sizes) (v9_front_alloc input_sizes)

/-- All reduction factors `block_size × items_per_thread` over the
configured block sizes crossed with the items-per-thread menu. -/
def config_factors (block_sizes : List Nat) : List Nat :=
  (block_sizes.map (fun b => itemsPerThreadMenu.map (fun i => b * i))).flatten

/-- The smallest reduction factor over all supported configurations. -/
def smallest_config_factor (block_sizes : List Nat) : Nat :=
  v9_smallest_factor (config_factors block_sizes)

/- ------------------------------------------------------------------ -/
/- Arithmetic facts about the pass planner                             -/
/- ------------------------------------------------------------------ -/

lemma new_size_eq_ceil (factor n : Nat) (h : 1 ≤ factor) :
    new_size factor n = (n + factor - 1) / factor := by
  unfold new_size
  have hdm := Nat.div_add_mod n factor
  have hmod := Nat.mod_lt n (show 0 < factor by omega)
  by_cases h0 : n % factor = 0
  · rw [if_pos h0]
    have hrw : n + factor - 1 = factor * (n / factor) + (factor - 1) := by omega
    rw [hrw, Nat.mul_add_div (show 0 < factor by omega),
      Nat.div_eq_of_lt (show factor - 1 < factor by omega)]
  · rw [if_neg h0]
    have hmul : factor * (n / factor + 1) = factor * (n / factor) + factor := by ring
    have hrw : n + factor - 1 = factor * (n / factor + 1) + (n % factor - 1) := by omega
    rw [hrw, Nat.mul_add_div (show 0 < factor by omega),
      Nat.div_eq_of_lt (show n % factor - 1 < factor by omega)]

lemma new_size_pos (factor n : Nat) (hn : 1 ≤ n) : 1 ≤ new_size factor n := by
  unfold new_size
  by_cases h0 : n % factor = 0
  · rw [if_pos h0]
    rcases Nat.eq_zero_or_pos factor with hf | hf
    · subst hf; rw [Nat.mod_zero] at h0; omega
    · have hdvd : factor ∣ n := Nat.dvd_of_mod_eq_zero h0
      have hle : factor ≤ n := Nat.le_of_dvd (by omega) hdvd
      have h1 : 1 ≤ n / factor := (Nat.one_le_div_iff hf).mpr hle
      omega
  · rw [if_neg h0]; exact Nat.succ_le_succ (Nat.zero_le _)

lemma new_size_lt (factor n : Nat) (hf : 2 ≤ factor) (hn : 2 ≤ n) :
    new_size factor n < n := by
  unfold new_size
  by_cases h0 : n % factor = 0
  · rw [if_pos h0]
    have := Nat.div_lt_self (show 0 < n by omega) (show 1 < factor by omega)
    omega
  · rw [if_neg h0]
    by_cases hfn : factor ≤ n
    · by_cases h2 : n = 2
      · subst h2
        have hf2 : factor = 2 := by omega
        subst hf2
        simp at h0
      · have h3 : 3 ≤ n := by omega
        have hle : n / factor ≤ n / 2 := Nat.div_le_div_left hf (by omega)
        have hdm2 := Nat.div_add_mod n 2
        have hm2 := Nat.mod_lt n (show 0 < 2 by omega)
        omega
    · have hz : n / factor = 0 := Nat.div_eq_of_lt (by omega)
      omega

lemma new_size_mul_ge (factor n : Nat) (hf : 1 ≤ factor) :
    n ≤ new_size factor n * factor := by
  unfold new_size
  have hdm := Nat.div_add_mod n factor
  have hcomm : factor * (n / factor) = n / factor * factor := Nat.mul_comm _ _
  have hmod := Nat.mod_lt n (show 0 < factor by omega)
  by_cases h0 : n % factor = 0
  · rw [if_pos h0]
    have hexp : (n / factor + 0) * factor = n / factor * factor := by ring
    omega
  · rw [if_neg h0]
    have hexp : (n / factor + 1) * factor = n / factor * factor + factor := by ring
    omega

/-- C3: the pass planner `new_size(factor, n)` equals `ceil(n / factor)`
(written in `Nat` arithmetic as `(n + factor - 1) / factor`) for every
factor ≥ 1, so remainder elements are never dropped. -/
theorem c3_new_size_ceil (factor n : Nat) (h : 1 ≤ factor) :
    new_size factor n = (n + factor - 1) / factor :=
  new_size_eq_ceil factor n h

/-- Witness for C3 at factor = 4, n = 10: `new_size 4 10 = ceil(10/4) = 3`. -/
theorem c3_new_size_ceil_witness :
    1 ≤ 4 ∧ new_size 4 10 = (10 + 4 - 1) / 4 :=
  ⟨by decide, c3_new_size_ceil 4 10 (by decide)⟩

/-- C10: for every reduction factor ≥ 2 and current size n > 1 the planner
strictly shrinks the array, and iterating it reaches the terminal size 1,
so the host pass loop terminates. -/
theorem c10_new_size_decreases (factor n : Nat) (hf : 2 ≤ factor) (hn : 2 ≤ n) :
    new_size factor n < n ∧ ∃ k, (new_size factor)^[k] n = 1 := by
  constructor
  · exact new_size_lt factor n hf hn
  · induction n using Nat.strong_induction_on with
    | _ n IH =>
      have hlt := new_size_lt factor n hf hn
      have hpos := new_size_pos factor n (by omega)
      by_cases h1 : new_size factor n = 1
      · exact ⟨1, by simpa [Function.iterate_one] using h1⟩
      · obtain ⟨k, hk⟩ := IH (new_size factor n) hlt (by omega)
        exact ⟨k + 1, by rw [Function.iterate_succ_apply]; exact hk⟩

/-- Witness for C10 at factor = 32, n = 8. -/
theorem c10_new_size_decreases_witness :
    new_size 32 8 < 8 ∧ ∃ k, (new_size 32)^[k] 8 = 1 :=
  c10_new_size_decreases 32 8 (by decide) (by decide)

/- ------------------------------------------------------------------ -/
/- Fold lemmas                                                         -/
/- ------------------------------------------------------------------ -/

section FoldLemmas

variable {T : Type} (op : T → T → T) (zero_elem : T)

lemma op_zero_left (hL : OpLaws op zero_elem) (a : T) : op zero_elem a = a := by
  rw [hL.comm]; exact hL.op_zero a

lemma op_op_swap (hL : OpLaws op zero_elem) (a b c d : T) :
    op (op a b) (op c d) = op (op a c) (op b d) := by
  rw [hL.assoc, hL.assoc]
  congr 1
  rw [← hL.assoc, hL.comm b c, hL.assoc]

lemma foldZ_congr (v w : Nat → T) (a n : Nat)
    (h : ∀ j, j < n → v (a + j) = w (a + j)) :
    foldZ op zero_elem v a n = foldZ op zero_elem w a n := by
  induction n with
  | zero => rfl
  | succ n IH =>
    show op (foldZ op zero_elem v a n) (v (a + n))
        = op (foldZ op zero_elem w a n) (w (a + n))
    rw [IH (fun j hj => h j (by omega)), h n (by omega)]

lemma foldZ_one (hL : OpLaws op zero_elem) (v : Nat → T) (a : Nat) :
    foldZ op zero_elem v a 1 = v a := by
  show op zero_elem (v (a + 0)) = v a
  rw [Nat.add_zero]
  exact op_zero_left op zero_elem hL (v a)

lemma foldZ_add (hL : OpLaws op zero_elem) (v : Nat → T) (a m : Nat) :
    ∀ n, foldZ op zero_elem v a (m + n)
      = op (foldZ op zero_elem v a m) (foldZ op zero_elem v (a + m) n) := by
  intro n
  induction n with
  | zero => rw [Nat.add_zero]; exact (hL.op_zero _).symm
  | succ n IH =>
    show foldZ op zero_elem v a (m + n + 1) = _
    show op (foldZ op zero_elem v a (m + n)) (v (a + (m + n))) = _
    rw [IH, hL.assoc]
    congr 1
    show op (foldZ op zero_elem v (a + m) n) (v (a + (m + n)))
        = op (foldZ op zero_elem v (a + m) n) (v (a + m + n))
    rw [Nat.add_assoc]

lemma foldZ_eq_zero (hL : OpLaws op zero_elem) (v : Nat → T) (a : Nat) :
    ∀ n, (∀ j, j < n → v (a + j) = zero_elem) → foldZ op zero_elem v a n = zero_elem := by
  intro n
  induction n with
  | zero => intro _; rfl
  | succ n IH =>
    intro h
    show op (foldZ op zero_elem v a n) (v (a + n)) = zero_elem
    rw [IH (fun j hj => h j (by omega)), h n (by omega)]
    exact hL.op_zero _

lemma foldZ_interchange (hL : OpLaws op zero_elem) (v w : Nat → T) (a : Nat) :
    ∀ n, foldZ op zero_elem (fun j => op (v j) (w j)) a n
      = op (foldZ op zero_elem v a n) (foldZ op zero_elem w a n) := by
  intro n
  induction n with
  | zero => exact (hL.op_zero _).symm
  | succ n IH =>
    show op (foldZ op zero_elem (fun j => op (v j) (w j)) a n) (op (v (a + n)) (w (a + n))) = _
    rw [IH, op_op_swap op zero_elem hL]
    rfl

lemma foldZ_shift (v : Nat → T) (a c : Nat) :
    ∀ n, foldZ op zero_elem (fun j => v (j + c)) a n = foldZ op zero_elem v (a + c) n := by
  intro n
  induction n with
  | zero => rfl
  | succ n IH =>
    show op (foldZ op zero_elem (fun j => v (j + c)) a n) (v (a + n + c)) = _
    rw [IH]
    have hidx : a + n + c = a + c + n := by omega
    rw [hidx]
    rfl

lemma foldZ_nest (hL : OpLaws op zero_elem) (v : Nat → T) (a m : Nat) :
    ∀ c, foldZ op zero_elem (fun w => foldZ op zero_elem v (a + w * m) m) 0 c
      = foldZ op zero_elem v a (c * m) := by
  intro c
  induction c with
  | zero => rw [Nat.zero_mul]; rfl
  | succ c IH =>
    show op (foldZ op zero_elem (fun w => foldZ op zero_elem v (a + w * m) m) 0 c)
        (foldZ op zero_elem v (a + (0 + c) * m) m) = _
    rw [IH, Nat.zero_add, Nat.succ_mul, foldZ_add op zero_elem hL]

lemma foldl_range_map (hL : OpLaws op zero_elem) (g : Nat → T) :
    ∀ n (x : T), ((List.range n).map g).foldl op x = op x (foldZ op zero_elem g 0 n) := by
  intro n
  induction n with
  | zero => intro x; exact (hL.op_zero x).symm
  | succ n IH =>
    intro x
    rw [List.range_succ, List.map_append, List.foldl_append]
    show op (((List.range n).map g).foldl op x) (g n) = _
    rw [IH, hL.assoc]
    congr 1
    show op (foldZ op zero_elem g 0 n) (g n) = foldZ op zero_elem g 0 (n + 1)
    show _ = op (foldZ op zero_elem g 0 n) (g (0 + n))
    rw [Nat.zero_add]

lemma foldZ_getD_cons (hL : OpLaws op zero_elem) (y : T) (ys : List T) :
    foldZ op zero_elem (fun j => (y :: ys).getD j zero_elem) 0 (ys.length + 1)
      = op y (foldZ op zero_elem (fun j => ys.getD j zero_elem) 0 ys.length) := by
  rw [show ys.length + 1 = 1 + ys.length by omega,
    foldZ_add op zero_elem hL _ 0 1, foldZ_one op zero_elem hL]
  have hg0 : (y :: ys).getD 0 zero_elem = y := by
    simp
  rw [hg0, ← foldZ_shift op zero_elem (fun j => (y :: ys).getD j zero_elem) 0 1]
  refine congrArg (op y) ?_
  exact foldZ_congr op zero_elem _ _ 0 ys.length (fun j _ => by
    show (y :: ys).getD ((0 + j) + 1) zero_elem = ys.getD (0 + j) zero_elem
    rw [Nat.zero_add]
    simp [List.getD_cons_succ])

lemma foldl_eq_foldZ_getD (hL : OpLaws op zero_elem) :
    ∀ (l : List T) (x : T),
      l.foldl op x = op x (foldZ op zero_elem (fun j => l.getD j zero_elem) 0 l.length) := by
  intro l
  induction l with
  | nil => intro x; exact (hL.op_zero x).symm
  | cons y ys IH =>
    intro x
    show ys.foldl op (op x y) = _
    rw [IH, hL.assoc]
    congr 1
    rw [show (y :: ys).length = ys.length + 1 from rfl, foldZ_getD_cons op zero_elem hL]

end FoldLemmas

/- ------------------------------------------------------------------ -/
/- The bounds-safe global read (claim C6) and the per-thread fold      -/
/- ------------------------------------------------------------------ -/

section ReadLemmas

variable {T : Type}

lemma get?_eq_some_getD (l : List T) (d : T) :
    ∀ j, j < l.length → l.get? j = some (l.getD j d) := by
  induction l with
  | nil => intro j hj; simp at hj
  | cons x xs IH =>
    intro j hj
    cases j with
    | zero => simp
    | succ j =>
      rw [List.get?_cons_succ, List.getD_cons_succ]
      exact IH j (by simpa using hj)

lemma collect_reads_map_some :
    ∀ (n : Nat) (g : Nat → Option T) (gv : Nat → T),
      (∀ I, I < n → g I = some (gv I)) →
      collect_reads ((List.range n).map g) = some ((List.range n).map gv) := by
  intro n
  induction n with
  | zero => intro g gv _; rfl
  | succ n IH =>
    intro g gv h
    rw [List.range_succ_eq_map, List.map_cons, List.map_cons, List.map_map, List.map_map]
    have hrest := IH (g ∘ Nat.succ) (gv ∘ Nat.succ) (fun I hI => h (I + 1) (by omega))
    show collect_reads (g 0 :: (List.range n).map (g ∘ Nat.succ)) = _
    show (match g 0, collect_reads ((List.range n).map (g ∘ Nat.succ)) with
      | some x, some xs => some (x :: xs)
      | _, _ => none) = _
    rw [hrest, h 0 (by omega)]

lemma read_global_safe_eq (zero_elem : T) (front : Nat → T) (n IPT i : Nat) :
    read_global_safe zero_elem front n IPT i
      = (List.range IPT).map (fun I => if i + I < n then front (i + I) else zero_elem) := by
  unfold read_global_safe
  by_cases h : i + IPT < n
  · rw [if_pos h]
    apply List.map_congr_left
    intro I hI
    rw [List.mem_range] at hI
    rw [if_pos (by omega)]
  · rw [if_neg h]

/-- C6: in the kernel's per-thread read of `ItemsPerThread` contiguous
positions starting at `i`, every position `p = i + I` yields `front[p]`
when `p` is below the valid length and the neutral element otherwise, and
no position at or beyond the valid front-buffer length is ever
dereferenced: with every dereference replaced by a partial lookup the
instrumented read still returns `some`, and its value agrees with the
kernel's actual read of the `getD`-extended buffer. -/
theorem c6_read_global_safe_bounds {T : Type} (zero_elem : T)
    (front : List T) (ItemsPerThread i : Nat) :
    read_global_safe_chk zero_elem front ItemsPerThread i
        = some ((List.range ItemsPerThread).map
            (fun I => if i + I < front.length then front.getD (i + I) zero_elem else zero_elem))
      ∧ read_global_safe zero_elem (fun j => front.getD j zero_elem)
          front.length ItemsPerThread i
        = (List.range ItemsPerThread).map
            (fun I => if i + I < front.length then front.getD (i + I) zero_elem else zero_elem) := by
  constructor
  · unfold read_global_safe_chk
    by_cases h : i + ItemsPerThread < front.length
    · rw [if_pos h]
      apply collect_reads_map_some
      intro I hI
      rw [if_pos (show i + I < front.length by omega)]
      exact get?_eq_some_getD front zero_elem (i + I) (by omega)
    · rw [if_neg h]
      apply collect_reads_map_some
      intro I hI
      by_cases h2 : i + I < front.length
      · rw [if_pos h2, if_pos h2]
        exact get?_eq_some_getD front zero_elem (i + I) h2
      · rw [if_neg h2, if_neg h2]
  · exact read_global_safe_eq zero_elem _ front.length ItemsPerThread i

lemma thread_fold_eq (op : T → T → T) (zero_elem : T) (hL : OpLaws op zero_elem)
    (front : Nat → T) (n IPT i : Nat) (hIPT : 1 ≤ IPT) :
    thread_fold op zero_elem front n IPT i
      = foldZ op zero_elem (fun j => if j < n then front j else zero_elem) i IPT := by
  obtain ⟨m, rfl⟩ : ∃ m, IPT = m + 1 := ⟨IPT - 1, by omega⟩
  unfold thread_fold
  rw [read_global_safe_eq]
  rw [List.range_succ_eq_map, List.map_cons, List.map_map]
  show (((List.range m).map
      ((fun I => if i + I < n then front (i + I) else zero_elem) ∘ Nat.succ)).foldl op
        (if i + 0 < n then front (i + 0) else zero_elem)) = _
  rw [foldl_range_map op zero_elem hL]
  have hm1 : m + 1 = 1 + m := by omega
  rw [hm1, foldZ_add op zero_elem hL _ i 1, foldZ_one op zero_elem hL]
  congr 1
  calc foldZ op zero_elem
        ((fun I => if i + I < n then front (i + I) else zero_elem) ∘ Nat.succ) 0 m
      = foldZ op zero_elem
          (fun j => (fun x => if x < n then front x else zero_elem) (j + (i + 1))) 0 m := by
        apply foldZ_congr
        intro j hj
        show (if i + ((0 + j) + 1) < n then front (i + ((0 + j) + 1)) else zero_elem)
            = if ((0 + j) + (i + 1)) < n then front ((0 + j) + (i + 1)) else zero_elem
        have hidx : i + ((0 + j) + 1) = (0 + j) + (i + 1) := by omega
        rw [hidx]
    _ = foldZ op zero_elem (fun x => if x < n then front x else zero_elem) (0 + (i + 1)) m :=
        foldZ_shift op zero_elem (fun x => if x < n then front x else zero_elem) 0 (i + 1) m
    _ = foldZ op zero_elem (fun x => if x < n then front x else zero_elem) (i + 1) m := by
        rw [Nat.zero_add]

lemma warp_shuffle_iter_delta_zero (op : T → T → T) (W : Nat) :
    ∀ fuel (v : Nat → T), warp_shuffle_iter op W fuel 0 v = v := by
  intro fuel v
  cases fuel with
  | zero => rfl
  | succ fuel => simp [warp_shuffle_iter]

lemma warp_shuffle_iter_pow (op : T → T → T) (zero_elem : T) (hL : OpLaws op zero_elem)
    (W : Nat) :
    ∀ (m : Nat) (fuel : Nat), m ≤ fuel → ∀ (v : Nat → T) (l : Nat), l + 2 ^ m ≤ W →
      warp_shuffle_iter op W fuel (2 ^ m / 2) v l = foldZ op zero_elem v l (2 ^ m) := by
  intro m
  induction m with
  | zero =>
    intro fuel _ v l _
    rw [show (2 : Nat) ^ 0 / 2 = 0 from rfl, warp_shuffle_iter_delta_zero]
    exact (foldZ_one op zero_elem hL v l).symm
  | succ m IH =>
    intro fuel hm v l hl
    obtain ⟨f, rfl⟩ : ∃ f, fuel = f + 1 := ⟨fuel - 1, by omega⟩
    have h2 : 2 ^ (m + 1) / 2 = 2 ^ m := by
      rw [pow_succ]
      omega
    have hpos : 2 ^ m ≠ 0 := by positivity
    rw [h2]
    show warp_shuffle_iter op W (f + 1) (2 ^ m) v l = _
    rw [warp_shuffle_iter, if_neg hpos]
    have hle : 2 ^ m ≤ 2 ^ (m + 1) := Nat.pow_le_pow_right (by omega) (by omega)
    rw [IH f (by omega) _ l (by omega)]
    have hcg : foldZ op zero_elem
        (fun x => op (v x) (shfl_down W (2 ^ m) v x)) l (2 ^ m)
        = foldZ op zero_elem (fun x => op (v x) (v (x + 2 ^ m))) l (2 ^ m) := by
      apply foldZ_congr
      intro j hj
      have hin : (l + j) + 2 ^ m < W := by
        have : 2 ^ (m + 1) = 2 ^ m + 2 ^ m := by rw [pow_succ]; omega
        omega
      show op (v (l + j)) (shfl_down W (2 ^ m) v (l + j)) = _
      unfold shfl_down
      rw [if_pos hin]
    rw [hcg, foldZ_interchange op zero_elem hL,
      foldZ_shift op zero_elem v l (2 ^ m),
      ← foldZ_add op zero_elem hL v l (2 ^ m) (2 ^ m)]
    congr 1
    rw [pow_succ]
    omega

lemma warp_reduce_fold (op : T → T → T) (zero_elem : T) (hL : OpLaws op zero_elem)
    (WS : Nat) (hW : ∃ m, WS = 2 ^ m) (v : Nat → T) :
    warp_reduce op WS v 0 = foldZ op zero_elem v 0 WS := by
  obtain ⟨m, rfl⟩ := hW
  unfold warp_reduce
  exact warp_shuffle_iter_pow op zero_elem hL (2 ^ m) m (2 ^ m)
    (Nat.le_of_lt (Nat.lt_two_pow m)) v 0 (by omega)

end ReadLemmas

/- ------------------------------------------------------------------ -/
/- Kernel correctness: one block folds its chunk                       -/
/- ------------------------------------------------------------------ -/

section KernelLemmas

variable {T : Type} (op : T → T → T) (zero_elem : T)

lemma divide_ceil_eq_one (x d : Nat) (h1 : 1 ≤ x) (h2 : x ≤ d) : divide_ceil x d = 1 := by
  unfold divide_ceil
  exact Nat.div_eq_of_lt_le (by omega) (by omega)

lemma cross_warp_loop_succ (WS WC : Nat) :
    ∀ (f A : Nat) (res sh : Nat → T),
      cross_warp_loop op zero_elem WS WC (f + 1) A res sh
        = if A = 0 then (res, sh)
          else
            (let p := cross_warp_round op zero_elem WS WC A res sh
             cross_warp_loop op zero_elem WS WC f
               (if A = 1 then 0 else divide_ceil A WS) p.1 p.2) :=
  fun _ _ _ _ => rfl

lemma cross_warp_loop_A_zero (WS WC : Nat) :
    ∀ fuel (res shared : Nat → T),
      cross_warp_loop op zero_elem WS WC fuel 0 res shared = (res, shared) := by
  intro fuel res shared
  cases fuel with
  | zero => rfl
  | succ fuel => simp [cross_warp_loop]

lemma cross_warp_loop_one_round (WS WC : Nat) (h1 : WC = 1) (f : Nat) (res sh : Nat → T) :
    cross_warp_loop op zero_elem WS WC (f + 1) WC res sh
      = cross_warp_round op zero_elem WS WC WC res sh := by
  rw [cross_warp_loop_succ, if_neg (show ¬ WC = 0 by omega), if_pos h1,
    cross_warp_loop_A_zero]

lemma cross_warp_loop_two_rounds (WS WC : Nat) (h0 : ¬ WC = 0) (h1 : ¬ WC = 1)
    (hA2 : divide_ceil WC WS = 1) (f : Nat) (res sh : Nat → T) :
    cross_warp_loop op zero_elem WS WC (f + 2) WC res sh
      = cross_warp_round op zero_elem WS WC 1
          (cross_warp_round op zero_elem WS WC WC res sh).1
          (cross_warp_round op zero_elem WS WC WC res sh).2 := by
  rw [show f + 2 = (f + 1) + 1 by omega]
  rw [cross_warp_loop_succ, if_neg h0, if_neg h1, hA2]
  rw [cross_warp_loop_succ, if_neg (show ¬ (1 : Nat) = 0 by omega),
    if_pos (show (1 : Nat) = 1 from rfl), cross_warp_loop_A_zero]

lemma warp_lane_fold (hL : OpLaws op zero_elem) (WS : Nat) (hWpow : ∃ m, WS = 2 ^ m)
    (res : Nat → T) (w : Nat) :
    warp_reduce op WS (fun lid => res (w * WS + lid)) 0
      = foldZ op zero_elem res (w * WS) WS := by
  rw [warp_reduce_fold op zero_elem hL WS hWpow]
  calc foldZ op zero_elem (fun lid => res (w * WS + lid)) 0 WS
      = foldZ op zero_elem (fun lid => res (lid + w * WS)) 0 WS := by
        apply foldZ_congr
        intro j _
        show res (w * WS + (0 + j)) = res ((0 + j) + w * WS)
        have hidx : w * WS + (0 + j) = (0 + j) + w * WS := by omega
        rw [hidx]
    _ = foldZ op zero_elem res (0 + w * WS) WS := foldZ_shift op zero_elem res 0 (w * WS) WS
    _ = foldZ op zero_elem res (w * WS) WS := by rw [Nat.zero_add]

lemma cross_warp_round_fst_zero (hL : OpLaws op zero_elem) (WS : Nat)
    (hWpow : ∃ m, WS = 2 ^ m) (WC A : Nat) (h0A : 0 < A) (h0WC : 0 < WC)
    (res sh : Nat → T) :
    (cross_warp_round op zero_elem WS WC A res sh).1 0 = foldZ op zero_elem res 0 WS := by
  simp only [cross_warp_round, read_shared_safe]
  rw [if_pos h0WC, if_pos h0A, warp_lane_fold op zero_elem hL WS hWpow, Nat.zero_mul]

lemma cross_warp_round_fst (hL : OpLaws op zero_elem) (WS : Nat)
    (hWpow : ∃ m, WS = 2 ^ m) (WC : Nat) (res : Nat → T) (tid : Nat) :
    (cross_warp_round op zero_elem WS WC WC res (fun _ => zero_elem)).1 tid
      = if tid < WC then foldZ op zero_elem res (tid * WS) WS else zero_elem := by
  simp only [cross_warp_round, read_shared_safe]
  by_cases h : tid < WC
  · rw [if_pos h, if_pos h, if_pos h, warp_lane_fold op zero_elem hL WS hWpow]
  · rw [if_neg h, if_neg h]

lemma kernel_fun_fold (hL : OpLaws op zero_elem) (BS WS IPT : Nat)
    (hWpow : ∃ m, WS = 2 ^ m) (hdvd : WS ∣ BS) (hWC1 : 1 ≤ BS / WS)
    (hWCle : BS / WS ≤ WS) (front : Nat → T) (fsize bid : Nat) :
    kernel_fun op zero_elem BS WS IPT front fsize bid
      = foldZ op zero_elem
          (fun tid => thread_fold op zero_elem front fsize IPT
            (bid * (BS * IPT) + tid * IPT))
          0 BS := by
  have hWSpos : 1 ≤ WS := by
    obtain ⟨m, rfl⟩ := hWpow
    exact Nat.pow_pos (by omega)
  have hBS : BS = (BS / WS) * WS := (Nat.div_mul_cancel hdvd).symm
  simp only [kernel_fun]
  set WC := BS / WS with hWCdef
  set res0 : Nat → T := fun tid =>
    thread_fold op zero_elem front fsize IPT (bid * (BS * IPT) + tid * IPT) with hres0
  by_cases h1 : WC = 1
  · -- a single cross-warp round: the block is exactly one warp
    have hBSW : BS = WS := by rw [hBS, h1, Nat.one_mul]
    rw [cross_warp_loop_one_round op zero_elem WS WC h1,
      cross_warp_round_fst_zero op zero_elem hL WS hWpow WC WC (by omega) (by omega),
      hBSW]
  · -- two cross-warp rounds
    have hWC2 : 2 ≤ WC := by omega
    have hA2 : divide_ceil WC WS = 1 := divide_ceil_eq_one WC WS (by omega) hWCle
    rw [show WC + 1 = (WC - 1) + 2 by omega]
    rw [cross_warp_loop_two_rounds op zero_elem WS WC (by omega) h1 hA2,
      cross_warp_round_fst_zero op zero_elem hL WS hWpow WC 1 (by omega) (by omega)]
    set vf : Nat → T := fun tid =>
      if tid < WC then foldZ op zero_elem res0 (tid * WS) WS else zero_elem with hvf
    have hstep : foldZ op zero_elem
        ((cross_warp_round op zero_elem WS WC WC res0 (fun _ => zero_elem)).1) 0 WS
        = foldZ op zero_elem vf 0 WS :=
      foldZ_congr op zero_elem _ _ 0 WS
        (fun j _ => cross_warp_round_fst op zero_elem hL WS hWpow WC res0 (0 + j))
    have hsplitfold := foldZ_add op zero_elem hL vf 0 WC (WS - WC)
    rw [show WC + (WS - WC) = WS by omega] at hsplitfold
    have htail : foldZ op zero_elem vf (0 + WC) (WS - WC) = zero_elem := by
      apply foldZ_eq_zero op zero_elem hL
      intro j _
      show (if 0 + WC + j < WC then _ else zero_elem) = zero_elem
      rw [if_neg (by omega)]
    have hhead : foldZ op zero_elem vf 0 WC
        = foldZ op zero_elem
            (fun w => foldZ op zero_elem res0 (0 + w * WS) WS) 0 WC := by
      apply foldZ_congr
      intro j hj
      show (if 0 + j < WC then foldZ op zero_elem res0 ((0 + j) * WS) WS else zero_elem) = _
      rw [if_pos (by omega)]
      have hidx : (0 : Nat) + (0 + j) * WS = (0 + j) * WS := by omega
      rw [hidx]
    rw [hstep, hsplitfold, htail, hL.op_zero, hhead,
      foldZ_nest op zero_elem hL res0 0 WS]
    rw [← hBS]

lemma kernel_fun_chunk (hL : OpLaws op zero_elem) (BS WS IPT : Nat)
    (hWpow : ∃ m, WS = 2 ^ m) (hdvd : WS ∣ BS) (hWC1 : 1 ≤ BS / WS)
    (hWCle : BS / WS ≤ WS) (hIPT : 1 ≤ IPT) (front : Nat → T) (fsize bid : Nat) :
    kernel_fun op zero_elem BS WS IPT front fsize bid
      = foldZ op zero_elem (fun j => if j < fsize then front j else zero_elem)
          (bid * (BS * IPT)) (BS * IPT) := by
  rw [kernel_fun_fold op zero_elem hL BS WS IPT hWpow hdvd hWC1 hWCle front fsize bid]
  have hcong : foldZ op zero_elem
      (fun tid => thread_fold op zero_elem front fsize IPT
        (bid * (BS * IPT) + tid * IPT)) 0 BS
      = foldZ op zero_elem
          (fun tid => foldZ op zero_elem
            (fun j => if j < fsize then front j else zero_elem)
            (bid * (BS * IPT) + tid * IPT) IPT) 0 BS :=
    foldZ_congr op zero_elem _ _ 0 BS
      (fun j _ => thread_fold_eq op zero_elem hL front fsize IPT
        (bid * (BS * IPT) + (0 + j) * IPT) hIPT)
  rw [hcong]
  exact foldZ_nest op zero_elem hL _ (bid * (BS * IPT)) IPT BS

lemma pass_fold (hL : OpLaws op zero_elem) (BS WS IPT : Nat)
    (hWpow : ∃ m, WS = 2 ^ m) (hdvd : WS ∣ BS) (hWC1 : 1 ≤ BS / WS)
    (hWCle : BS / WS ≤ WS) (hIPT : 1 ≤ IPT) (hF1 : 1 ≤ BS * IPT)
    (v : Nat → T) (n : Nat) :
    foldZ op zero_elem
        (fun bid => kernel_fun op zero_elem BS WS IPT v n bid) 0
        (new_size (BS * IPT) n)
      = foldZ op zero_elem v 0 n := by
  set padded : Nat → T := fun j => if j < n then v j else zero_elem with hpad
  have h1 : foldZ op zero_elem
      (fun bid => kernel_fun op zero_elem BS WS IPT v n bid) 0 (new_size (BS * IPT) n)
      = foldZ op zero_elem
          (fun bid => foldZ op zero_elem padded (0 + bid * (BS * IPT)) (BS * IPT)) 0
          (new_size (BS * IPT) n) := by
    apply foldZ_congr
    intro j _
    rw [kernel_fun_chunk op zero_elem hL BS WS IPT hWpow hdvd hWC1 hWCle hIPT v n (0 + j)]
    have hidx : (0 : Nat) + (0 + j) * (BS * IPT) = (0 + j) * (BS * IPT) := by omega
    rw [hidx]
  rw [h1, foldZ_nest op zero_elem hL padded 0 (BS * IPT)]
  have h2 := foldZ_add op zero_elem hL padded 0 n (new_size (BS * IPT) n * (BS * IPT) - n)
  rw [show n + (new_size (BS * IPT) n * (BS * IPT) - n) = new_size (BS * IPT) n * (BS * IPT) by
    have := new_size_mul_ge (BS * IPT) n hF1
    omega] at h2
  rw [h2]
  have htail : foldZ op zero_elem padded (0 + n)
      (new_size (BS * IPT) n * (BS * IPT) - n) = zero_elem := by
    apply foldZ_eq_zero op zero_elem hL
    intro j _
    show (if 0 + n + j < n then v (0 + n + j) else zero_elem) = zero_elem
    rw [if_neg (by omega)]
  rw [htail, hL.op_zero]
  apply foldZ_congr
  intro j hj
  show (if 0 + j < n then v (0 + j) else zero_elem) = v (0 + j)
  rw [if_pos (by omega)]

lemma warp_menu_pow (WS : Nat) (h : WS ∈ warpSizeMenu) : ∃ m, WS = 2 ^ m := by
  simp [warpSizeMenu] at h
  rcases h with rfl | rfl
  · exact ⟨5, by norm_num⟩
  · exact ⟨6, by norm_num⟩

lemma menu_div_facts (BS WS : Nat) (hBS : BS ∈ blockSizeMenu) (hWS : WS ∈ warpSizeMenu)
    (hle : WS ≤ BS) : WS ∣ BS ∧ 1 ≤ BS / WS ∧ BS / WS ≤ WS := by
  simp [blockSizeMenu] at hBS
  simp [warpSizeMenu] at hWS
  rcases hBS with rfl | rfl | rfl | rfl | rfl | rfl <;>
    rcases hWS with rfl | rfl <;> revert hle <;> decide

lemma ipt_menu_pos (IPT : Nat) (h : IPT ∈ itemsPerThreadMenu) : 1 ≤ IPT := by
  simp [itemsPerThreadMenu] at h
  omega

lemma bs_menu_ge (BS : Nat) (h : BS ∈ blockSizeMenu) : 32 ≤ BS := by
  simp [blockSizeMenu] at h
  omega

lemma factor_ge_two (BS IPT : Nat) (hBS : BS ∈ blockSizeMenu)
    (hIPT : IPT ∈ itemsPerThreadMenu) : 2 ≤ BS * IPT := by
  have h1 := bs_menu_ge BS hBS
  have h2 := ipt_menu_pos IPT hIPT
  have h3 : BS * 1 ≤ BS * IPT := Nat.mul_le_mul_left BS h2
  rw [Nat.mul_one] at h3
  omega

end KernelLemmas

/- ------------------------------------------------------------------ -/
/- Host pass-loop lemmas                                               -/
/- ------------------------------------------------------------------ -/

section HostLemmas

variable {T : Type} (op : T → T → T) (zero_elem : T)

lemma pass_loop_exit (bs ws ipt : Nat) (errs : Nat → Bool) :
    ∀ fuel curr k (st : CallState T), curr ≤ 1 →
      pass_loop op zero_elem bs ws ipt errs fuel curr k st = (Except.ok (), st) := by
  intro fuel curr k st h
  cases fuel with
  | zero => simp [pass_loop, h]
  | succ f => simp [pass_loop, h]

lemma pass_loop_succ (bs ws ipt : Nat) (errs : Nat → Bool) :
    ∀ (f curr k : Nat) (st : CallState T),
      pass_loop op zero_elem bs ws ipt errs (f + 1) curr k st
        = if curr ≤ 1 then (Except.ok (), st)
          else if bs ∈ blockSizeMenu then
            if ws ∈ warpSizeMenu then
              if ipt ∈ itemsPerThreadMenu then
                if errs k then
                  (Except.error "hipKernelLaunchGGL",
                    launch_state op zero_elem bs ws ipt curr st)
                else
                  pass_loop op zero_elem bs ws ipt errs f
                    (new_size (bs * ipt) curr) (k + 1)
                    (if 1 < new_size (bs * ipt) curr then
                      swap_state (launch_state op zero_elem bs ws ipt curr st)
                    else launch_state op zero_elem bs ws ipt curr st)
              else (Except.error "static_switch: unsupported items_per_thread", st)
            else (Except.error "static_switch: unsupported warp_size", st)
          else (Except.error "static_switch: unsupported block_size", st) :=
  fun _ _ _ _ => rfl

lemma sizeChainAux_small (factor : Nat) :
    ∀ fuel n, n ≤ 1 → sizeChainAux factor fuel n = [] := by
  intro fuel n h
  cases fuel with
  | zero => rfl
  | succ f => simp [sizeChainAux, h]

lemma sizeChain_small (factor n : Nat) (h : n ≤ 1) : sizeChain factor n = [] :=
  sizeChainAux_small factor n n h

lemma sizeChainAux_fuel (factor : Nat) (hf : 2 ≤ factor) :
    ∀ n fuel, n ≤ fuel → sizeChainAux factor fuel n = sizeChain factor n := by
  intro n
  induction n using Nat.strong_induction_on with
  | _ n IH =>
    intro fuel hfuel
    by_cases h1 : n ≤ 1
    · rw [sizeChainAux_small factor fuel n h1, sizeChain_small factor n h1]
    · have hn2 : 2 ≤ n := by omega
      obtain ⟨f1, rfl⟩ : ∃ f1, fuel = f1 + 1 := ⟨fuel - 1, by omega⟩
      have hlt := new_size_lt factor n hf hn2
      have e1 : sizeChainAux factor (f1 + 1) n
          = n :: sizeChainAux factor f1 (new_size factor n) := by
        simp [sizeChainAux, h1]
      obtain ⟨n1, hn1⟩ : ∃ n1, n = n1 + 1 := ⟨n - 1, by omega⟩
      have e2 : sizeChain factor n = n :: sizeChainAux factor n1 (new_size factor n) := by
        unfold sizeChain
        rw [hn1]
        simp [sizeChainAux, show ¬ (n1 + 1 ≤ 1) by omega]
      rw [e1, e2, IH (new_size factor n) hlt f1 (by omega),
        IH (new_size factor n) hlt n1 (by omega)]

lemma sizeChain_unfold (factor n : Nat) (hf : 2 ≤ factor) (hn : 2 ≤ n) :
    sizeChain factor n = n :: sizeChain factor (new_size factor n) := by
  obtain ⟨n1, rfl⟩ : ∃ n1, n = n1 + 1 := ⟨n - 1, by omega⟩
  have hlt := new_size_lt factor (n1 + 1) hf hn
  show sizeChainAux factor (n1 + 1) (n1 + 1) = _
  simp only [sizeChainAux, if_neg (show ¬ (n1 + 1 ≤ 1) by omega)]
  rw [sizeChainAux_fuel factor hf (new_size factor (n1 + 1)) n1 (by omega)]

lemma sizeChain_length_pos (factor n : Nat) (hf : 2 ≤ factor) (hn : 2 ≤ n) :
    1 ≤ (sizeChain factor n).length := by
  rw [sizeChain_unfold factor n hf hn]
  simp

lemma errs_false_cond (k : Nat) : ¬ ((fun _ : Nat => false) k = true) := by simp

lemma pass_loop_trace_spec (bs ws ipt : Nat) (hbs : bs ∈ blockSizeMenu)
    (hws : ws ∈ warpSizeMenu) (hipt : ipt ∈ itemsPerThreadMenu) :
    ∀ (fuel curr : Nat), 1 ≤ curr → curr ≤ fuel → ∀ (k : Nat) (st : CallState T),
      ∃ stf, pass_loop op zero_elem bs ws ipt (fun _ => false) fuel curr k st
          = (Except.ok (), stf)
        ∧ stf.trace = st.trace ++ sizeChain (bs * ipt) curr
        ∧ stf.swaps = st.swaps + ((sizeChain (bs * ipt) curr).length - 1) := by
  have hf2 : 2 ≤ bs * ipt := factor_ge_two bs ipt hbs hipt
  intro fuel
  induction fuel with
  | zero => intro curr h1 h2; omega
  | succ f IH =>
    intro curr h1 h2 k st
    by_cases hc1 : curr ≤ 1
    · refine ⟨st, pass_loop_exit op zero_elem bs ws ipt _ (f + 1) curr k st hc1, ?_, ?_⟩
      · rw [sizeChain_small _ _ hc1]
        simp
      · rw [sizeChain_small _ _ hc1]
        simp
    · have hc2 : 2 ≤ curr := by omega
      rw [pass_loop_succ op zero_elem bs ws ipt _ f curr k st, if_neg hc1,
        if_pos hbs, if_pos hws, if_pos hipt, if_neg (errs_false_cond k)]
      have hnslt : new_size (bs * ipt) curr < curr := new_size_lt _ _ hf2 hc2
      have hnspos : 1 ≤ new_size (bs * ipt) curr := new_size_pos _ _ (by omega)
      obtain ⟨stf, heq, htr, hsw⟩ := IH (new_size (bs * ipt) curr) hnspos (by omega) (k + 1)
        (if 1 < new_size (bs * ipt) curr then
          swap_state (launch_state op zero_elem bs ws ipt curr st)
        else launch_state op zero_elem bs ws ipt curr st)
      refine ⟨stf, heq, ?_, ?_⟩
      · rw [htr, sizeChain_unfold (bs * ipt) curr hf2 hc2]
        by_cases hs : 1 < new_size (bs * ipt) curr
        · rw [if_pos hs]
          simp [swap_state, launch_state]
        · rw [if_neg hs]
          simp [launch_state]
      · rw [hsw, sizeChain_unfold (bs * ipt) curr hf2 hc2]
        by_cases hs : 1 < new_size (bs * ipt) curr
        · rw [if_pos hs]
          have hlen : 1 ≤ (sizeChain (bs * ipt) (new_size (bs * ipt) curr)).length :=
            sizeChain_length_pos _ _ hf2 (by omega)
          simp only [swap_state, launch_state, List.length_cons]
          omega
        · rw [if_neg hs]
          rw [sizeChain_small (bs * ipt) (new_size (bs * ipt) curr) (by omega)]
          simp [launch_state]

lemma pass_loop_fold_spec (hL : OpLaws op zero_elem) (bs ws ipt : Nat)
    (hbs : bs ∈ blockSizeMenu) (hws : ws ∈ warpSizeMenu)
    (hipt : ipt ∈ itemsPerThreadMenu) (hwsbs : ws ≤ bs) :
    ∀ (fuel curr : Nat), 2 ≤ curr → curr ≤ fuel → ∀ (k : Nat) (st : CallState T),
      st.front = !st.back →
      ∃ stf, pass_loop op zero_elem bs ws ipt (fun _ => false) fuel curr k st
          = (Except.ok (), stf)
        ∧ stf.mem stf.back 0 = foldZ op zero_elem (st.mem st.front) 0 curr := by
  have hf2 : 2 ≤ bs * ipt := factor_ge_two bs ipt hbs hipt
  obtain ⟨hdvd, hwc1, hwcle⟩ := menu_div_facts bs ws hbs hws hwsbs
  have hWpow := warp_menu_pow ws hws
  have hiptpos := ipt_menu_pos ipt hipt
  intro fuel
  induction fuel with
  | zero => intro curr h1 h2; omega
  | succ f IH =>
    intro curr hc2 hle k st hfb
    rw [pass_loop_succ op zero_elem bs ws ipt _ f curr k st,
      if_neg (show ¬ curr ≤ 1 by omega), if_pos hbs, if_pos hws, if_pos hipt,
      if_neg (errs_false_cond k)]
    have hnslt : new_size (bs * ipt) curr < curr := new_size_lt _ _ hf2 hc2
    have hnspos : 1 ≤ new_size (bs * ipt) curr := new_size_pos _ _ (by omega)
    have hpf : foldZ op zero_elem
        (fun bid => kernel_fun op zero_elem bs ws ipt (st.mem st.front) curr bid) 0
        (new_size (bs * ipt) curr)
        = foldZ op zero_elem (st.mem st.front) 0 curr :=
      pass_fold op zero_elem hL bs ws ipt hWpow hdvd hwc1 hwcle hiptpos (by omega)
        (st.mem st.front) curr
    by_cases hs : 1 < new_size (bs * ipt) curr
    · rw [if_pos hs]
      have hfb2 : (swap_state (launch_state op zero_elem bs ws ipt curr st)).front
          = !(swap_state (launch_state op zero_elem bs ws ipt curr st)).back := by
        simp only [swap_state, launch_state]
        rw [hfb, Bool.not_not]
      obtain ⟨stf, heq, hfold⟩ := IH (new_size (bs * ipt) curr) (by omega) (by omega)
        (k + 1) (swap_state (launch_state op zero_elem bs ws ipt curr st)) hfb2
      refine ⟨stf, heq, ?_⟩
      rw [hfold]
      have hcg : foldZ op zero_elem
          ((swap_state (launch_state op zero_elem bs ws ipt curr st)).mem
            ((swap_state (launch_state op zero_elem bs ws ipt curr st)).front)) 0
          (new_size (bs * ipt) curr)
          = foldZ op zero_elem
              (fun bid => kernel_fun op zero_elem bs ws ipt (st.mem st.front) curr bid) 0
              (new_size (bs * ipt) curr) := by
        apply foldZ_congr
        intro j hj
        simp only [swap_state, launch_state, write_back]
        rw [if_pos (show True from trivial),
          if_pos (show 0 + j < new_size (bs * ipt) curr by omega)]
      rw [hcg, hpf]
    · rw [if_neg hs]
      rw [pass_loop_exit op zero_elem bs ws ipt _ f (new_size (bs * ipt) curr) (k + 1)
        (launch_state op zero_elem bs ws ipt curr st) (by omega)]
      refine ⟨launch_state op zero_elem bs ws ipt curr st, rfl, ?_⟩
      have h0 : (launch_state op zero_elem bs ws ipt curr st).mem
          ((launch_state op zero_elem bs ws ipt curr st).back) 0
          = kernel_fun op zero_elem bs ws ipt (st.mem st.front) curr 0 := by
        simp only [launch_state, write_back]
        rw [if_pos (show True from trivial),
          if_pos (show 0 < new_size (bs * ipt) curr by omega)]
      rw [h0]
      have hone := hpf
      rw [show new_size (bs * ipt) curr = 1 by omega] at hone
      rw [foldZ_one op zero_elem hL] at hone
      exact hone

end HostLemmas

/- ------------------------------------------------------------------ -/
/- Claim theorems                                                      -/
/- ------------------------------------------------------------------ -/

section CallLemmas

variable {T : Type} (op : T → T → T) (zero_elem : T)

/-- With no device errors injected, `operator()` reduces to the pass loop
followed by the device-to-host read of `back[0]` and the pointer
restore. -/
lemma call_operator_no_errs (bs ws ipt : Nat) (input : List T) (initMem : Bool → Nat → T) :
    call_operator op zero_elem bs ws ipt (fun _ => false) input initMem
      = call_finish (fun _ => false)
          (pass_loop op zero_elem bs ws ipt (fun _ => false) input.length input.length 4
            { front := false, back := true,
              mem := write_back initMem false (fun j => input.getD j zero_elem) input.length,
              trace := [], swaps := 0 }) := rfl

end CallLemmas

/-- C1 (amended): for every input of length at least 2, every associative
and commutative operator with a true neutral element, every block size and
items-per-thread from the menus, and every device warp width from the
{32, 64} menu that does not exceed the block size, the scalar returned by
the call operator equals the sequential left-to-right fold of the input
with the operator. -/
theorem c1_amended_correct {T : Type} (op : T → T → T) (zero_elem : T)
    (hL : OpLaws op zero_elem) (bs ws ipt : Nat) (hbs : bs ∈ blockSizeMenu)
    (hws : ws ∈ warpSizeMenu) (hipt : ipt ∈ itemsPerThreadMenu) (hwsbs : ws ≤ bs)
    (x y : T) (rest : List T) (initMem : Bool → Nat → T) :
    (call_operator op zero_elem bs ws ipt (fun _ => false) (x :: y :: rest) initMem).fst
      = Except.ok ((y :: rest).foldl op x) := by
  rw [call_operator_no_errs]
  obtain ⟨stf, heq, hfold⟩ := pass_loop_fold_spec op zero_elem hL bs ws ipt hbs hws hipt hwsbs
    (x :: y :: rest).length (x :: y :: rest).length
    (by simp [List.length_cons]) (le_refl _) 4
    { front := false, back := true,
      mem := write_back initMem false (fun j => (x :: y :: rest).getD j zero_elem)
        (x :: y :: rest).length,
      trace := [], swaps := 0 } rfl
  rw [heq]
  show Except.ok (stf.mem stf.back 0) = _
  rw [hfold]
  congr 1
  have hmem : ∀ j, j < (x :: y :: rest).length →
      write_back initMem false (fun i => (x :: y :: rest).getD i zero_elem)
          (x :: y :: rest).length false (0 + j)
        = (x :: y :: rest).getD (0 + j) zero_elem := by
    intro j hj
    unfold write_back
    rw [if_pos rfl, if_pos (by omega)]
  have h1 : foldZ op zero_elem
      (write_back initMem false (fun i => (x :: y :: rest).getD i zero_elem)
        (x :: y :: rest).length false) 0 (x :: y :: rest).length
      = foldZ op zero_elem (fun i => (x :: y :: rest).getD i zero_elem) 0
          (x :: y :: rest).length :=
    foldZ_congr op zero_elem _ _ 0 _ hmem
  rw [h1, show (x :: y :: rest).length = (y :: rest).length + 1 from rfl,
    foldZ_getD_cons op zero_elem hL x (y :: rest),
    foldl_eq_foldZ_getD op zero_elem hL (y :: rest) x]

/-- Witness for C1 (amended): summing [1, 2, 3] with addition, block size
32, warp width 32, one item per thread yields the sequential fold 6. -/
theorem c1_amended_correct_witness :
    (call_operator Nat.add 0 32 32 1 (fun _ => false) [1, 2, 3] (fun _ _ => 0)).fst
      = Except.ok ([2, 3].foldl Nat.add 1) :=
  c1_amended_correct Nat.add 0 ⟨Nat.add_assoc, Nat.add_comm, Nat.add_zero⟩ 32 32 1
    (by decide) (by decide) (by decide) (by decide) 1 2 [3] (fun _ _ => 0)

/-- C1 counterexample: the claim as stated fails at two concrete supported
inputs.  With n = 1 the call returns the stale back-buffer word instead of
the input element (the loop never runs and the result is copied from the
never-written back buffer).  With block size 32 on a warp-width-64 device
the kernel's warp count is 32 / 64 = 0, the cross-warp loop performs zero
rounds and each block emits only thread 0's single item, so 64 ones reduce
to 1, not 64. -/
theorem c1_counterexample :
    seqFold Nat.add [5] = some 5
      ∧ (call_operator Nat.add 0 32 32 1 (fun _ => false) [5] (fun _ _ => 0)).fst
          ≠ Except.ok 5
      ∧ seqFold Nat.add (List.replicate 64 1) = some 64
      ∧ (call_operator Nat.add 0 32 64 1 (fun _ => false) (List.replicate 64 1)
          (fun _ _ => 0)).fst ≠ Except.ok 64 := by
  refine ⟨rfl, ?_, by decide, ?_⟩
  · have h : (call_operator Nat.add 0 32 32 1 (fun _ => false) [5] (fun _ _ => 0)).fst
        = Except.ok 0 := rfl
    rw [h]
    intro hc
    injection hc with hc
    exact absurd hc (by decide)
  · have h : (call_operator Nat.add 0 32 64 1 (fun _ => false) (List.replicate 64 1)
        (fun _ _ => 0)).fst = Except.ok 1 := rfl
    rw [h]
    intro hc
    injection hc with hc
    exact absurd hc (by decide)

/-- C2: for the single-element input [42] (with both device buffers
initially zeroed) the call performs zero kernel launches, as the claim
says, but returns 0 — the stale contents of the back buffer, which no pass
ever wrote — instead of the input element 42: the result is copied from
`back` (v9.hpp line 142) while the input was copied to `front`
(line 92). -/
theorem c2_single_element_bug :
    (call_operator Nat.add 0 32 32 1 (fun _ => false) [42] (fun _ _ => 0)).fst
        = Except.ok 0
      ∧ (call_operator Nat.add 0 32 32 1 (fun _ => false) [42]
          (fun _ _ => 0)).snd.trace = [] :=
  ⟨rfl, rfl⟩

/-- C4: for every call with a supported configuration, no device errors and
nonempty input, the host pass loop issues exactly one pass per size in the
chain of sizes greater than 1 (`sizeChain`), performs one buffer swap per
pass except the last (`swaps = passes - 1`, so the final pass's output is
not swapped away), and the scalar the call returns is read from the back
buffer of the loop's final state. -/
theorem c4_pass_loop_swap {T : Type} (op : T → T → T) (zero_elem : T)
    (bs ws ipt : Nat) (hbs : bs ∈ blockSizeMenu) (hws : ws ∈ warpSizeMenu)
    (hipt : ipt ∈ itemsPerThreadMenu) (x : T) (rest : List T)
    (initMem : Bool → Nat → T) :
    ∃ stf,
      pass_loop op zero_elem bs ws ipt (fun _ => false) (x :: rest).length
          (x :: rest).length 4
          { front := false, back := true,
            mem := write_back initMem false (fun j => (x :: rest).getD j zero_elem)
              (x :: rest).length,
            trace := [], swaps := 0 }
        = (Except.ok (), stf)
      ∧ stf.trace = sizeChain (bs * ipt) (x :: rest).length
      ∧ stf.swaps = stf.trace.length - 1
      ∧ (call_operator op zero_elem bs ws ipt (fun _ => false) (x :: rest) initMem).fst
        = Except.ok (stf.mem stf.back 0) := by
  obtain ⟨stf, heq, htr, hsw⟩ := pass_loop_trace_spec op zero_elem bs ws ipt hbs hws hipt
    (x :: rest).length (x :: rest).length (by simp) (le_refl _) 4
    { front := false, back := true,
      mem := write_back initMem false (fun j => (x :: rest).getD j zero_elem)
        (x :: rest).length,
      trace := [], swaps := 0 }
  refine ⟨stf, heq, ?_, ?_, ?_⟩
  · rw [htr]
    simp
  · rw [hsw, htr]
    simp
  · rw [call_operator_no_errs, heq]
    rfl

/-- Witness for C4 on a two-pass run: 33 ones with block size 32 give the
pass chain [33, 2] and one swap. -/
theorem c4_pass_loop_swap_witness :
    ∃ stf,
      pass_loop Nat.add 0 32 32 1 (fun _ => false) ((1 : Nat) :: List.replicate 32 1).length
          ((1 : Nat) :: List.replicate 32 1).length 4
          { front := false, back := true,
            mem := write_back (fun _ _ => 0) false
              (fun j => ((1 : Nat) :: List.replicate 32 1).getD j 0)
              ((1 : Nat) :: List.replicate 32 1).length,
            trace := [], swaps := 0 }
        = (Except.ok (), stf)
      ∧ stf.trace = sizeChain (32 * 1) ((1 : Nat) :: List.replicate 32 1).length
      ∧ stf.swaps = stf.trace.length - 1
      ∧ (call_operator Nat.add 0 32 32 1 (fun _ => false) ((1 : Nat) :: List.replicate 32 1)
          (fun _ _ => 0)).fst = Except.ok (stf.mem stf.back 0) :=
  c4_pass_loop_swap Nat.add 0 32 32 1 (by decide) (by decide) (by decide) 1
    (List.replicate 32 1) (fun _ _ => 0)

section CallFinishLemmas

variable {T : Type}

lemma call_finish_error (errs : Nat → Bool) (e : String) (st : CallState T) :
    call_finish errs (Except.error e, st) = (Except.error e, st) := rfl

lemma call_finish_ok (errs : Nat → Bool) (u : Unit) (st : CallState T) :
    call_finish errs (Except.ok u, st)
      = if errs (4 + st.trace.length) then (Except.error "hipEventRecord", st)
        else if errs (4 + st.trace.length + 1) then (Except.error "hipEventSynchronize", st)
        else if errs (4 + st.trace.length + 2) then (Except.error "hipMemcpy", st)
        else if errs (4 + st.trace.length + 3) then (Except.error "hipEventElapsedTime", st)
        else if errs (4 + st.trace.length + 4) then (Except.error "hipEventDestroy", st)
        else if errs (4 + st.trace.length + 5) then (Except.error "hipEventDestroy", st)
        else (Except.ok (st.mem st.back 0), { st with front := false, back := true }) := rfl

end CallFinishLemmas

/-- C5 (amended): whenever a call of the call operator returns
successfully, the front and back pointers are restored to their original
buffer identities (the allocation originally named front, respectively
back) — for any error oracle, input, configuration and initial buffer
contents. -/
theorem c5_restored_on_success {T : Type} (op : T → T → T) (zero_elem : T)
    (bs ws ipt : Nat) (errs : Nat → Bool) (input : List T) (initMem : Bool → Nat → T)
    (r : T)
    (h : (call_operator op zero_elem bs ws ipt errs input initMem).fst = Except.ok r) :
    (call_operator op zero_elem bs ws ipt errs input initMem).snd.front = false
      ∧ (call_operator op zero_elem bs ws ipt errs input initMem).snd.back = true := by
  simp only [call_operator] at h ⊢
  by_cases h0 : errs 0 = true
  · rw [if_pos h0] at h
    exact absurd h (by simp)
  rw [if_neg h0] at h ⊢
  by_cases h1 : errs 1 = true
  · rw [if_pos h1] at h
    exact absurd h (by simp)
  rw [if_neg h1] at h ⊢
  by_cases h2 : errs 2 = true
  · rw [if_pos h2] at h
    exact absurd h (by simp)
  rw [if_neg h2] at h ⊢
  by_cases h3 : errs 3 = true
  · rw [if_pos h3] at h
    exact absurd h (by simp)
  rw [if_neg h3] at h ⊢
  rcases hpl : pass_loop op zero_elem bs ws ipt errs input.length input.length 4
      { front := false, back := true,
        mem := write_back initMem false (fun j => input.getD j zero_elem) input.length,
        trace := [], swaps := 0 } with ⟨e, st⟩
  rw [hpl] at h
  cases e with
  | error msg =>
    rw [call_finish_error] at h
    exact absurd h (by simp)
  | ok u =>
    rw [call_finish_ok] at h ⊢
    by_cases h4 : errs (4 + st.trace.length) = true
    · rw [if_pos h4] at h
      exact absurd h (by simp)
    rw [if_neg h4] at h ⊢
    by_cases h5 : errs (4 + st.trace.length + 1) = true
    · rw [if_pos h5] at h
      exact absurd h (by simp)
    rw [if_neg h5] at h ⊢
    by_cases h6 : errs (4 + st.trace.length + 2) = true
    · rw [if_pos h6] at h
      exact absurd h (by simp)
    rw [if_neg h6] at h ⊢
    by_cases h7 : errs (4 + st.trace.length + 3) = true
    · rw [if_pos h7] at h
      exact absurd h (by simp)
    rw [if_neg h7] at h ⊢
    by_cases h8 : errs (4 + st.trace.length + 4) = true
    · rw [if_pos h8] at h
      exact absurd h (by simp)
    rw [if_neg h8] at h ⊢
    by_cases h9 : errs (4 + st.trace.length + 5) = true
    · rw [if_pos h9] at h
      exact absurd h (by simp)
    rw [if_neg h9]
    exact ⟨rfl, rfl⟩

/-- Witness for C5 (amended): a successful two-element sum leaves the
pointers restored. -/
theorem c5_restored_on_success_witness :
    (call_operator Nat.add 0 32 32 1 (fun _ => false) [1, 2] (fun _ _ => 0)).snd.front = false
      ∧ (call_operator Nat.add 0 32 32 1 (fun _ => false) [1, 2] (fun _ _ => 0)).snd.back
        = true :=
  c5_restored_on_success Nat.add 0 32 32 1 (fun _ => false) [1, 2] (fun _ _ => 0) 3 rfl

/-- C5 counterexample: a structured failure at the device-to-host copy
(error-oracle index 8: the memcpy after a two-pass loop) escapes
`operator()` after the pass loop swapped the buffers once, and the
front/back pointers are left swapped, not restored to their original
identities. -/
theorem c5_counterexample :
    (call_operator Nat.add 0 32 32 1 (fun k => k == 8) (List.replicate 33 1)
        (fun _ _ => 0)).fst = Except.error "hipMemcpy"
      ∧ ¬ ((call_operator Nat.add 0 32 32 1 (fun k => k == 8) (List.replicate 33 1)
            (fun _ _ => 0)).snd.front = false
          ∧ (call_operator Nat.add 0 32 32 1 (fun k => k == 8) (List.replicate 33 1)
              (fun _ _ => 0)).snd.back = true) :=
  ⟨rfl, by decide⟩

/-- C7 (amended): for every call with input length at least 2 and a block
size, warp width, or items-per-thread missing from its compile-time menu,
the engine reports a configuration error, performs zero kernel launches
(empty trace) and leaves the back allocation untouched. -/
theorem c7_unsupported_config {T : Type} (op : T → T → T) (zero_elem : T)
    (bs ws ipt : Nat)
    (hinv : bs ∉ blockSizeMenu ∨ ws ∉ warpSizeMenu ∨ ipt ∉ itemsPerThreadMenu)
    (x y : T) (rest : List T) (initMem : Bool → Nat → T) :
    ∃ msg,
      (call_operator op zero_elem bs ws ipt (fun _ => false) (x :: y :: rest) initMem).fst
          = Except.error msg
        ∧ (call_operator op zero_elem bs ws ipt (fun _ => false) (x :: y :: rest)
            initMem).snd.trace = []
        ∧ ∀ j, (call_operator op zero_elem bs ws ipt (fun _ => false) (x :: y :: rest)
            initMem).snd.mem true j = initMem true j := by
  rw [call_operator_no_errs]
  simp only [List.length_cons]
  rw [pass_loop_succ]
  rw [if_neg (show ¬ (rest.length + 1 + 1 ≤ 1) by omega)]
  by_cases hbs : bs ∈ blockSizeMenu
  · rw [if_pos hbs]
    by_cases hws : ws ∈ warpSizeMenu
    · rw [if_pos hws]
      by_cases hipt : ipt ∈ itemsPerThreadMenu
      · rcases hinv with h | h | h <;> exact absurd (by assumption) h
      · rw [if_neg hipt]
        exact ⟨"static_switch: unsupported items_per_thread", rfl, rfl, fun j => rfl⟩
    · rw [if_neg hws]
      exact ⟨"static_switch: unsupported warp_size", rfl, rfl, fun j => rfl⟩
  · rw [if_neg hbs]
    exact ⟨"static_switch: unsupported block_size", rfl, rfl, fun j => rfl⟩

/-- Witness for C7 (amended) at block size 7, input [1, 2]. -/
theorem c7_unsupported_config_witness :
    ∃ msg,
      (call_operator Nat.add 0 7 32 1 (fun _ => false) [1, 2] (fun _ _ => 0)).fst
          = Except.error msg
        ∧ (call_operator Nat.add 0 7 32 1 (fun _ => false) [1, 2]
            (fun _ _ => 0)).snd.trace = []
        ∧ ∀ j, (call_operator Nat.add 0 7 32 1 (fun _ => false) [1, 2]
            (fun _ _ => 0)).snd.mem true j = (fun _ _ => (0 : Nat)) true j :=
  c7_unsupported_config Nat.add 0 7 32 1 (Or.inl (by decide)) 1 2 [] (fun _ _ => 0)

/-- C7 counterexample: with a single-element input the pass loop never
runs, so a call whose block size 7 is not in the menu reports no error at
all — it returns successfully (with the stale back-buffer value) and
launches nothing, contradicting the claim as stated for every such
call. -/
theorem c7_counterexample :
    (7 : Nat) ∉ blockSizeMenu
      ∧ (call_operator Nat.add 0 7 32 1 (fun _ => false) [9] (fun _ _ => 0)).fst
        = Except.ok 0
      ∧ (call_operator Nat.add 0 7 32 1 (fun _ => false) [9] (fun _ _ => 0)).snd.trace
        = [] :=
  ⟨by decide, rfl, rfl⟩

/-- C9 counterexample: block size 4 is not in the compile-time menu
{32, 64, 128, 256, 512, 1024}, so the scenario's call reports a
configuration error instead of returning 36 after two passes. -/
theorem c9_counterexample :
    (4 : Nat) ∉ blockSizeMenu
      ∧ (call_operator Nat.add 0 4 32 1 (fun _ => false) [1, 2, 3, 4, 5, 6, 7, 8]
          (fun _ _ => 0)).fst = Except.error "static_switch: unsupported block_size" :=
  ⟨by decide, rfl⟩

/-- C9 (amended): with the smallest supported configuration (block size
32, one item per thread, warp width 32) the input [1..8] reduces to 36 in
exactly one pass (8 → 1, since the reduction factor is 32). -/
theorem c9_amended_scenario :
    (call_operator Nat.add 0 32 32 1 (fun _ => false) [1, 2, 3, 4, 5, 6, 7, 8]
        (fun _ _ => 0)).fst = Except.ok 36
      ∧ (call_operator Nat.add 0 32 32 1 (fun _ => false) [1, 2, 3, 4, 5, 6, 7, 8]
          (fun _ _ => 0)).snd.trace = [8]
      ∧ sizeChain (32 * 1) 8 = [8] :=
  ⟨rfl, rfl, rfl⟩

/- ------------------------------------------------------------------ -/
/- Constructor allocation sizes (claim C8)                             -/
/- ------------------------------------------------------------------ -/

section AllocLemmas

lemma foldl_max_init_le : ∀ (l : List Nat) (x : Nat), x ≤ l.foldl max x := by
  intro l
  induction l with
  | nil => intro x; exact le_refl x
  | cons a as IH =>
    intro x
    calc x ≤ max x a := le_max_left x a
      _ ≤ as.foldl max (max x a) := IH (max x a)

lemma foldl_max_ge :
    ∀ (xs : List Nat) (x y : Nat), y = x ∨ y ∈ xs → y ≤ xs.foldl max x := by
  intro xs
  induction xs with
  | nil =>
    intro x y h
    rcases h with rfl | h
    · exact le_refl y
    · simp at h
  | cons a as IH =>
    intro x y h
    show y ≤ as.foldl max (max x a)
    rcases h with rfl | h
    · calc y ≤ max y a := le_max_left y a
        _ ≤ as.foldl max (max y a) := foldl_max_init_le as (max y a)
    · rcases List.mem_cons.mp h with rfl | h2
      · calc y ≤ max x y := le_max_right x y
          _ ≤ as.foldl max (max x y) := foldl_max_init_le as _
      · exact IH (max x a) y (Or.inr h2)

lemma v9_front_alloc_ge (sizes : List Nat) (s : Nat) (h : s ∈ sizes) :
    s ≤ v9_front_alloc sizes := by
  cases sizes with
  | nil => simp at h
  | cons x xs =>
    show s ≤ xs.foldl max x
    rcases List.mem_cons.mp h with rfl | h2
    · exact foldl_max_ge xs s s (Or.inl rfl)
    · exact foldl_max_ge xs x s (Or.inr h2)

lemma foldl_min_le :
    ∀ (xs : List Nat) (x y : Nat), y = x ∨ y ∈ xs → xs.foldl min x ≤ y := by
  intro xs
  induction xs with
  | nil =>
    intro x y h
    rcases h with rfl | h
    · exact le_refl y
    · simp at h
  | cons a as IH =>
    intro x y h
    show as.foldl min (min x a) ≤ y
    have hinit : ∀ (l : List Nat) (z : Nat), l.foldl min z ≤ z := by
      intro l
      induction l with
      | nil => intro z; exact le_refl z
      | cons b bs IHl =>
        intro z
        calc bs.foldl min (min z b) ≤ min z b := IHl (min z b)
          _ ≤ z := min_le_left z b
    rcases h with rfl | h
    · calc as.foldl min (min y a) ≤ min y a := hinit as (min y a)
        _ ≤ y := min_le_left y a
    · rcases List.mem_cons.mp h with rfl | h2
      · calc as.foldl min (min x y) ≤ min x y := hinit as (min x y)
          _ ≤ y := min_le_right x y
      · exact IH (min x a) y (Or.inr h2)

lemma foldl_min_mem :
    ∀ (xs : List Nat) (x : Nat), xs.foldl min x = x ∨ xs.foldl min x ∈ xs := by
  intro xs
  induction xs with
  | nil => intro x; exact Or.inl rfl
  | cons a as IH =>
    intro x
    show as.foldl min (min x a) = x ∨ as.foldl min (min x a) ∈ a :: as
    rcases IH (min x a) with h | h
    · rcases min_choice x a with h2 | h2
      · left
        rw [h, h2]
      · right
        rw [h, h2]
        exact List.mem_cons_self a as
    · right
      exact List.mem_cons_of_mem a h

lemma v9_smallest_factor_le (l : List Nat) (b : Nat) (h : b ∈ l) :
    v9_smallest_factor l ≤ b := by
  cases l with
  | nil => simp at h
  | cons x xs =>
    show xs.foldl min x ≤ b
    rcases List.mem_cons.mp h with rfl | h2
    · exact foldl_min_le xs b b (Or.inl rfl)
    · exact foldl_min_le xs x b (Or.inr h2)

lemma v9_smallest_factor_mem (l : List Nat) (h : l ≠ []) : v9_smallest_factor l ∈ l := by
  cases l with
  | nil => exact absurd rfl h
  | cons x xs =>
    show xs.foldl min x ∈ x :: xs
    rcases foldl_min_mem xs x with h2 | h2
    · rw [h2]
      exact List.mem_cons_self x xs
    · exact List.mem_cons_of_mem x h2

lemma mem_config_factors (blocks : List Nat) (b : Nat) (hb : b ∈ blocks) (i : Nat)
    (hi : i ∈ itemsPerThreadMenu) : b * i ∈ config_factors blocks := by
  unfold config_factors
  rw [List.mem_flatten]
  exact ⟨itemsPerThreadMenu.map (fun i2 => b * i2),
    List.mem_map_of_mem _ hb, List.mem_map_of_mem _ hi⟩

lemma config_factors_mem_elim (blocks : List Nat) (y : Nat)
    (hy : y ∈ config_factors blocks) :
    ∃ b, b ∈ blocks ∧ ∃ i, i ∈ itemsPerThreadMenu ∧ y = b * i := by
  unfold config_factors at hy
  rw [List.mem_flatten] at hy
  obtain ⟨l, hl, hyl⟩ := hy
  rw [List.mem_map] at hl
  obtain ⟨b, hb, rfl⟩ := hl
  rw [List.mem_map] at hyl
  obtain ⟨i, hi, hkey⟩ := hyl
  exact ⟨b, hb, i, hi, hkey.symm⟩

lemma smallest_config_factor_eq (b0 : Nat) (blocks : List Nat) :
    smallest_config_factor (b0 :: blocks) = v9_smallest_factor (b0 :: blocks) := by
  have hne : config_factors (b0 :: blocks) ≠ [] := by
    have hmem : b0 * 1 ∈ config_factors (b0 :: blocks) :=
      mem_config_factors _ b0 (List.mem_cons_self _ _) 1 (by decide)
    intro hcontra
    rw [hcontra] at hmem
    simp at hmem
  apply le_antisymm
  · have hb := v9_smallest_factor_mem (b0 :: blocks) (by simp)
    have h1 : v9_smallest_factor (b0 :: blocks) * 1 ∈ config_factors (b0 :: blocks) :=
      mem_config_factors _ _ hb 1 (by decide)
    have h2 := v9_smallest_factor_le (config_factors (b0 :: blocks)) _ h1
    rwa [Nat.mul_one] at h2
  · have hc := v9_smallest_factor_mem (config_factors (b0 :: blocks)) hne
    obtain ⟨b, hb, i, hi, hkey⟩ := config_factors_mem_elim _ _ hc
    have hi1 : 1 ≤ i := ipt_menu_pos i hi
    have hble : v9_smallest_factor (b0 :: blocks) ≤ b := v9_smallest_factor_le _ b hb
    have hbbi : b * 1 ≤ b * i := Nat.mul_le_mul_left b hi1
    rw [Nat.mul_one] at hbbi
    show v9_smallest_factor (b0 :: blocks) ≤ v9_smallest_factor (config_factors (b0 :: blocks))
    rw [hkey]
    omega

end AllocLemmas

/-- C8: the constructor allocates the front buffer with capacity equal to
the largest configured input size (hence at least every configured size),
and the back buffer with capacity `new_size(min block size, largest)`,
which equals — hence is at least — the ceiling of the largest input size
divided by the smallest reduction factor `block_size × items_per_thread`
over all supported configurations (the items-per-thread menu contains 1,
so that smallest factor is the smallest configured block size). -/
theorem c8_buffer_capacities (s0 b0 : Nat) (sizes blocks : List Nat)
    (hpos : ∀ b, b ∈ (b0 :: blocks) → 1 ≤ b) :
    (∀ s, s ∈ (s0 :: sizes) → s ≤ v9_front_alloc (s0 :: sizes))
      ∧ (v9_front_alloc (s0 :: sizes) + smallest_config_factor (b0 :: blocks) - 1)
            / smallest_config_factor (b0 :: blocks)
          ≤ v9_back_alloc (s0 :: sizes) (b0 :: blocks) := by
  constructor
  · intro s hs
    exact v9_front_alloc_ge _ s hs
  · rw [smallest_config_factor_eq b0 blocks]
    have hb := v9_smallest_factor_mem (b0 :: blocks) (by simp)
    have hb1 : 1 ≤ v9_smallest_factor (b0 :: blocks) := hpos _ hb
    unfold v9_back_alloc
    rw [new_size_eq_ceil _ _ hb1]

/-- Witness for C8 with input sizes {100, 50} and block sizes {64, 32}:
front capacity 100, back capacity ceil(100 / 32) = 4. -/
theorem c8_buffer_capacities_witness :
    (∀ s, s ∈ ((100 : Nat) :: [50]) → s ≤ v9_front_alloc (100 :: [50]))
      ∧ (v9_front_alloc (100 :: [50]) + smallest_config_factor (64 :: [32]) - 1)
            / smallest_config_factor (64 :: [32])
          ≤ v9_back_alloc (100 :: [50]) (64 :: [32]) :=
  c8_buffer_capacities 100 64 [50] [32] (by decide)

end Reduction
